import Mathlib

/-
Verification of the caching/prefetching engine of cppForSwig/FileMap.cpp
(FileMap and BlockFileAccessor).

Shallow embedding notes.
* A shared_ptr<FileMap> is modelled as an index (address) into a heap, a list
  of FileMap objects that only grows; this captures the aliasing between the
  table slot and the AccessCursor (FileMapContainer), which both point at the
  same object, so a usage-mark update through either is seen by both.
* Reference counts are not tracked numerically: the eviction sweep is handed
  the list of addresses referenced by holders other than the table itself
  (AccessCursors of this and other threads); use_count() == 1 for a table
  entry means exactly that its address is not in that list.
* uint32_t and uint64_t arithmetic is Nat arithmetic modulo U32 and U64.
* The filesystem is a function from path to Option (list of bytes); none
  means open() fails.  malloc returns uninitialized memory, modelled by an
  ambient fill byte.
-/

set_option autoImplicit false

namespace FileMapModel

/-- Modulus of C++ uint32_t arithmetic, 2 ^ 32. -/
def U32 : Nat := 4294967296

/-- Modulus of C++ uint64_t arithmetic, 2 ^ 64. -/
def U64 : Nat := 18446744073709551616

/-- UINT32_MAX, used by the source both as the uint32 wrap-around value and as
the "no pending prefetch" sentinel stored in prefetchFileNum_. -/
def UINT32_MAX : Nat := 4294967295

/-- A catalog entry: one element of the vector<BlkFile> handed to
BlockFileAccessor (file number, path, recorded file size). -/
structure BlkFile where
  fnum : Nat
  path : Nat
  filesize : Nat
deriving DecidableEq, Repr, Inhabited

/-- The filesystem: maps a path to the bytes of the file behind it, or none
when open() fails for that path. -/
def FileSystem : Type := Nat → Option (List Nat)

/-- The fetch_ tag of a FileMap: FETCH_FETCHED is set by the constructor,
FETCH_ACCESSED by BlockFileAccessor::getFileMap once the map has been handed
to a consumer. -/
inductive FetchState
  | fetched
  | accessed
deriving DecidableEq, Repr, Inhabited

/-- The FileMap object: fnum_, mapsize_, the malloc-ed buffer filemap_, the
atomic usage mark lastSeenCumulated_, and the fetch_ tag. -/
structure FileMap where
  fnum : Nat
  mapsize : Nat
  filemap : List Nat
  lastSeenCumulated : Nat
  fetch : FetchState
deriving DecidableEq, Repr, Inhabited

/-- The only error the source raises: std::runtime_error("failed to open
file") out of the FileMap constructor. -/
inductive IoError
  | openFailed
deriving DecidableEq, Repr

deriving instance DecidableEq for Except

/-- The BFA_PREFETCH mode selector of BlockFileAccessor. -/
inductive BFA_PREFETCH
  | PREFETCH_NONE
  | PREFETCH_FORWARD
  | PREFETCH_BACKWARD
deriving DecidableEq, Repr

/-- FileMap::FileMap(BlkFile&) (FileMap.cpp lines 3-29, POSIX branch).
Throws iff open() fails.  On success it mallocs blk.filesize bytes (their
initial contents are the ambient uninitialized byte) and issues one read()
whose return value is IGNORED: a short read (file shorter than the recorded
size) is not detected, the buffer simply keeps uninitialized bytes past the
end of what read() delivered.  lastSeenCumulated_ is stored as 0 and fetch_
is set to FETCH_FETCHED. -/
def FileMap.construct (fs : FileSystem) (uninit : Nat) (blk : BlkFile) :
    Except IoError FileMap :=
  match fs blk.path with
  | none => Except.error IoError.openFailed
  | some contents =>
      Except.ok
        { fnum := blk.fnum
          mapsize := blk.filesize
          filemap := contents.take blk.filesize ++
            List.replicate (blk.filesize - (contents.take blk.filesize).length) uninit
          lastSeenCumulated := 0
          fetch := FetchState.fetched }

/-- FileMap::getRawBlock (lines 55-63): bdr.setRef(filemap_ + offset, size),
then lastSeenCumulated_ := lastSeenCumulative.fetch_add(size) + size, all in
uint64 arithmetic.  Returns (the returned byte view, the updated FileMap, the
updated shared clock).  An out-of-range (offset, size) is undefined behavior
in the source (no bounds check); the model truncates the view at the buffer
end. -/
def FileMap.getRawBlock (fm : FileMap) (offset size clock : Nat) :
    List Nat × FileMap × Nat :=
  let clock2 := (clock + size) % U64
  ((fm.filemap.drop offset).take size,
   { fm with lastSeenCumulated := clock2 },
   clock2)

/-- Read-only environment of a BlockFileAccessor: the filesystem, the byte
malloc leaves in fresh memory, the catalog blkFiles_, the prefetch mode and
the eviction constant threshold_. -/
structure BFAEnv where
  fs : FileSystem
  uninit : Nat
  blkFiles : List BlkFile
  prefetch : BFA_PREFETCH
  threshold : Nat

/-- Mutable state of a BlockFileAccessor: the heap of all FileMap objects
allocated so far (a shared_ptr is an index into it), the map blkMaps_ as an
association list fnum -> address, the shared clock lastSeenCumulative_, the
sweep trigger nextThreshold_ and the pending prefetch slot prefetchFileNum_. -/
structure BFAState where
  heap : List FileMap
  blkMaps : List (Nat × Nat)
  lastSeenCumulative : Nat
  nextThreshold : Nat
  prefetchFileNum : Nat
deriving DecidableEq, Repr

/-- Dereference an address into the heap (default object if dangling; all
addresses produced by the operations below are in range). -/
def heapGet : List FileMap → Nat → FileMap
  | [], _ => default
  | fm :: _, 0 => fm
  | _ :: rest, Nat.succ a => heapGet rest a

/-- Store through an address into the heap (no-op if out of range). -/
def heapSet : List FileMap → Nat → FileMap → List FileMap
  | [], _, _ => []
  | _ :: rest, 0, fm => fm :: rest
  | x :: rest, Nat.succ a, fm => x :: heapSet rest a fm

/-- std::map::find on the association list blkMaps_. -/
def mapFind : List (Nat × Nat) → Nat → Option Nat
  | [], _ => none
  | p :: rest, k => if p.1 = k then some p.2 else mapFind rest k

/-- std::map::operator[] followed by assignment (used by prefetchThread):
replaces the value of an existing key, inserts the pair otherwise. -/
def mapAssign : List (Nat × Nat) → Nat → Nat → List (Nat × Nat)
  | [], k, a => [(k, a)]
  | p :: rest, k, a => if p.1 = k then (k, a) :: rest else p :: mapAssign rest k a

/-- The FileMapContainer an AccessCursor passes to getRawBlock.  prev_ is a
shared_ptr<FileMap>* in the source; none collapses both a null pointer and an
empty shared_ptr (the source checks both before dereferencing). -/
structure FileMapContainer where
  prev : Option Nat
  current : Option Nat
deriving DecidableEq, Repr

/-- The addresses a (possibly absent) FileMapContainer holds shared
references to. -/
def cursorRefs : Option FileMapContainer → List Nat
  | none => []
  | some c => c.prev.toList ++ c.current.toList

/-- Lookup-or-load step of BlockFileAccessor::getFileMap (lines 150-156):
find fnum in blkMaps_; on a miss construct a FileMap from the catalog entry
(a constructor throw propagates, nothing is inserted) and insert it.  Returns
the address of the entry and the updated state.  Indexing (*blkFiles_)[fnum]
out of catalog range is undefined behavior in the source; the model reads a
default BlkFile there. -/
def lookupOrLoad (env : BFAEnv) (st : BFAState) (fnum : Nat) :
    Except IoError (Nat × BFAState) :=
  match mapFind st.blkMaps fnum with
  | some a => Except.ok (a, st)
  | none =>
      match FileMap.construct env.fs env.uninit (env.blkFiles.getD fnum default) with
      | Except.error e => Except.error e
      | Except.ok fm =>
          Except.ok (st.heap.length,
            { st with
                heap := st.heap ++ [fm]
                blkMaps := st.blkMaps ++ [(fnum, st.heap.length)] })

/-- The prefetch index computed by getFileMap (lines 162-171): nextFnum is
fnum + 1 in uint32; in PREFETCH_FORWARD mode it is replaced by UINT32_MAX
when it exceeds blkFiles_->size() - 1 (a size_t subtraction); otherwise
(backward mode) it is reassigned fnum - 1 in uint32, with no lower bound
check. -/
def nextFnumOf (env : BFAEnv) (fnum : Nat) : Nat :=
  if env.prefetch = BFA_PREFETCH.PREFETCH_FORWARD then
    (if (env.blkFiles.length + (U64 - 1)) % U64 < (fnum + 1) % U32
     then UINT32_MAX else (fnum + 1) % U32)
  else (fnum + (U32 - 1)) % U32

/-- Prefetch-signal and touch step of getFileMap (lines 158-185): if the
entry at address a has not been accessed yet and prefetching is enabled,
compute nextFnum and, when prefetchMu_.try_lock() succeeds (tlk), store it
into prefetchFileNum_ and notify the worker; in every case finally set the
entry fetch_ tag to FETCH_ACCESSED. -/
def signalAndTouch (env : BFAEnv) (tlk : Bool) (fnum a : Nat) (st : BFAState) :
    BFAState :=
  let fm := heapGet st.heap a
  let st2 :=
    if fm.fetch ≠ FetchState.accessed ∧ env.prefetch ≠ BFA_PREFETCH.PREFETCH_NONE ∧
        tlk = true then
      { st with prefetchFileNum := nextFnumOf env fnum }
    else st
  { st2 with heap := heapSet st2.heap a { fm with fetch := FetchState.accessed } }

/-- BlockFileAccessor::getFileMap (lines 146-186).  tlk tells whether the
try_lock on prefetchMu_ succeeds.  On a constructor throw the error
propagates and the state is returned unchanged (the insert never ran). -/
def getFileMap (env : BFAEnv) (tlk : Bool) (st : BFAState) (fnum : Nat) :
    Except IoError Nat × BFAState :=
  match lookupOrLoad env st fnum with
  | Except.error e => (Except.error e, st)
  | Except.ok (a, st1) => (Except.ok a, signalAndTouch env tlk fnum a st1)

/-- The body of the eviction loop of BlockFileAccessor::getRawBlock (lines
123-138): an entry (fnum, a) is erased iff
heap[a].lastSeenCumulated_ + threshold_ < clock (uint64 arithmetic) and the
table shared_ptr is the only outstanding reference, i.e. no external holder
references address a. -/
def evictionSweep (heap : List FileMap) (clock threshold : Nat)
    (ext : List Nat) (m : List (Nat × Nat)) : List (Nat × Nat) :=
  m.filter (fun p =>
    !(decide (((heapGet heap p.2).lastSeenCumulated + threshold) % U64 < clock) &&
      !(decide (p.2 ∈ ext))))

/-- The sweep trigger of getRawBlock (lines 120-142): when the clock has
reached nextThreshold_, run the eviction loop over blkMaps_ and recompute
nextThreshold_ := clock + threshold_ (uint64 arithmetic). -/
def maybeSweep (env : BFAEnv) (ext : List Nat) (st : BFAState) : BFAState :=
  if st.nextThreshold ≤ st.lastSeenCumulative then
    { st with
        blkMaps := evictionSweep st.heap st.lastSeenCumulative env.threshold ext
          st.blkMaps
        nextThreshold := (st.lastSeenCumulative + env.threshold) % U64 }
  else st

/-- Fast-path test of BlockFileAccessor::getRawBlock (lines 102-109): use the
cursor previous region directly when it exists and its fnum_ matches. -/
def fastPathAddr (st : BFAState) (fnum : Nat) (fmp : Option FileMapContainer) :
    Option Nat :=
  match fmp with
  | none => none
  | some c =>
      match c.prev with
      | none => none
      | some a => if (heapGet st.heap a).fnum = fnum then some a else none

/-- Serving step of getRawBlock (line 114): call FileMap::getRawBlock on the
object at address a, write back its updated usage mark and the advanced
shared clock. -/
def serveFrom (st : BFAState) (a offset size : Nat) : List Nat × BFAState :=
  let r := FileMap.getRawBlock (heapGet st.heap a) offset size st.lastSeenCumulative
  (r.1,
   { st with heap := heapSet st.heap a r.2.1, lastSeenCumulative := r.2.2 })

/-- BlockFileAccessor::getRawBlock (lines 99-143).  extraRefs lists the
addresses referenced by shared_ptr holders other than the cursor fmp (other
threads, other cursors); together with the references of the updated cursor
they decide use_count() == 1 inside the sweep.  On a load error the throw
propagates: the cursor and the state are unchanged. -/
def BFA_getRawBlock (env : BFAEnv) (tlk : Bool) (extraRefs : List Nat)
    (st : BFAState) (fnum offset size : Nat) (fmp : Option FileMapContainer) :
    Except IoError (List Nat) × Option FileMapContainer × BFAState :=
  match (match fastPathAddr st fnum fmp with
         | some a => Except.ok (a, st)
         | none =>
             match getFileMap env tlk st fnum with
             | (Except.error e, _) => Except.error e
             | (Except.ok a, st1) => Except.ok (a, st1)) with
  | Except.error e => (Except.error e, fmp, st)
  | Except.ok (a, st1) =>
      let sr := serveFrom st1 a offset size
      let fmp2 := fmp.map (fun c => { c with current := some a })
      (Except.ok sr.1, fmp2, maybeSweep env (extraRefs ++ cursorRefs fmp2) sr.2)

/-- One iteration of the prefetchThread worker body (lines 205-215): under
the table mutex, if prefetchFileNum_ is not the UINT32_MAX sentinel,
construct a new FileMap for that index and store it with
blkMaps_[prefetchFileNum_] = fm, which REPLACES an existing entry.  The
pending slot is not cleared.  A constructor throw escapes the worker; it is
returned as an error with the state unchanged. -/
def prefetchStep (env : BFAEnv) (st : BFAState) : Except IoError Unit × BFAState :=
  if st.prefetchFileNum = UINT32_MAX then (Except.ok (), st)
  else
    match FileMap.construct env.fs env.uninit
        (env.blkFiles.getD st.prefetchFileNum default) with
    | Except.error e => (Except.error e, st)
    | Except.ok fm =>
        (Except.ok (),
         { st with
             heap := st.heap ++ [fm]
             blkMaps := mapAssign st.blkMaps st.prefetchFileNum st.heap.length })

/-- One read request of a caller: arguments of a BlockFileAccessor::getRawBlock
call, plus whether the try_lock inside a possible prefetch signal succeeds. -/
structure ReadReq where
  fnum : Nat
  offset : Nat
  size : Nat
  tlk : Bool
deriving DecidableEq, Repr

/-- A caller issuing a sequence of getRawBlock calls through one
AccessCursor, demoting current to previous between calls (the cursor
discipline of spec section 4.4).  Collects the byte views returned. -/
def runReads (env : BFAEnv) (st : BFAState) (fmp : Option FileMapContainer) :
    List ReadReq →
    Except IoError (List (List Nat)) × Option FileMapContainer × BFAState
  | [] => (Except.ok [], fmp, st)
  | r :: rs =>
      match BFA_getRawBlock env r.tlk [] st r.fnum r.offset r.size fmp with
      | (Except.error e, fmp1, st1) => (Except.error e, fmp1, st1)
      | (Except.ok bs, fmp1, st1) =>
          match runReads env st1 (fmp1.map (fun c => { c with prev := c.current })) rs with
          | (Except.error e, fmpn, stn) => (Except.error e, fmpn, stn)
          | (Except.ok bss, fmpn, stn) => (Except.ok (bs :: bss), fmpn, stn)

/-- The bytes the catalog associates with file index f: the on-disk contents
of the file at the path of entry f. -/
def fileBytes (env : BFAEnv) (f : Nat) : List Nat :=
  (env.fs (env.blkFiles.getD f default).path).getD []

/-- Catalog consistency (spec sections 1 and 6: the catalog yields a stable
(path, byte size) pair per index): entry i carries fnum i, its file opens,
and the recorded size equals the on-disk length. -/
def catalogOK (env : BFAEnv) : Prop :=
  ∀ i, i < env.blkFiles.length →
    ((env.blkFiles.getD i default).fnum = i ∧
     env.fs (env.blkFiles.getD i default).path = some (fileBytes env i) ∧
     (fileBytes env i).length = (env.blkFiles.getD i default).filesize)

/-- Every FileMap object in the heap was loaded by the constructor: its file
index is a catalog index and its buffer holds exactly the bytes of that
file. -/
def HeapWF (env : BFAEnv) (heap : List FileMap) : Prop :=
  ∀ fm ∈ heap, fm.fnum < env.blkFiles.length ∧ fm.filemap = fileBytes env fm.fnum

/-- Every table entry points at a live heap object whose file index is the
entry key. -/
def MapWF (heap : List FileMap) (m : List (Nat × Nat)) : Prop :=
  ∀ p ∈ m, p.2 < heap.length ∧ (heapGet heap p.2).fnum = p.1

/-- Well-formed accessor state. -/
def WF (env : BFAEnv) (st : BFAState) : Prop :=
  HeapWF env st.heap ∧ MapWF st.heap st.blkMaps

/-- Well-formed cursor: every address it holds is a live heap object. -/
def CWF (st : BFAState) (fmp : Option FileMapContainer) : Prop :=
  ∀ b ∈ cursorRefs fmp, b < st.heap.length

/-! Concrete fixtures used by the closed instances below. -/

/-- Concrete filesystem: path 0 holds [7, 8], path 1 holds [3]. -/
def fsW : FileSystem := fun p =>
  if p = 0 then some [7, 8] else if p = 1 then some [3] else none

/-- Concrete environment: a consistent two-file catalog, forward prefetch. -/
def envW : BFAEnv :=
  { fs := fsW
    uninit := 9
    blkFiles := [⟨0, 0, 2⟩, ⟨1, 1, 1⟩]
    prefetch := BFA_PREFETCH.PREFETCH_FORWARD
    threshold := 100 }

/-- Fresh accessor state over envW. -/
def stW : BFAState :=
  { heap := []
    blkMaps := []
    lastSeenCumulative := 0
    nextThreshold := 100
    prefetchFileNum := UINT32_MAX }

/-- Concrete loaded region for file 0 of a 4-byte catalog, usage mark 0. -/
def fmA : FileMap := ⟨0, 4, [1, 2, 3, 4], 0, FetchState.accessed⟩

/-- Concrete loaded region for file 1 of a 4-byte catalog, usage mark 0. -/
def fmB : FileMap := ⟨1, 4, [5, 6, 7, 8], 0, FetchState.accessed⟩

/-- Environment for the eviction boundary scenario: threshold 4, prefetch
disabled, both catalog files loaded in stC4. -/
def envC4 : BFAEnv :=
  { fs := fun _ => none
    uninit := 9
    blkFiles := [⟨0, 0, 4⟩, ⟨1, 1, 4⟩]
    prefetch := BFA_PREFETCH.PREFETCH_NONE
    threshold := 4 }

/-- State with both regions resident, clock 0, a sweep due at the next
read. -/
def stC4 : BFAState := ⟨[fmA, fmB], [(0, 0), (1, 1)], 0, 0, UINT32_MAX⟩

/-- State with file 0 resident and already accessed, used for the fast-path
instance. -/
def stC3 : BFAState := ⟨[⟨0, 2, [7, 8], 0, FetchState.accessed⟩], [(0, 0)], 2, 100, UINT32_MAX⟩

/-- Filesystem whose file at path 0 is 1 byte long (shorter than the catalog
size 2 used with it): a short read. -/
def fsShort : FileSystem := fun p => if p = 0 then some [7] else none

/-- State with an accessed region for file 1 (usage mark 42) in the table and
a pending prefetch request for the same index 1. -/
def stC6 : BFAState := ⟨[⟨1, 1, [5], 42, FetchState.accessed⟩], [(1, 0)], 0, 100, 1⟩

/-- The same two-file catalog as envW but with backward prefetch mode. -/
def envB : BFAEnv :=
  { fs := fsW
    uninit := 9
    blkFiles := [⟨0, 0, 2⟩, ⟨1, 1, 1⟩]
    prefetch := BFA_PREFETCH.PREFETCH_BACKWARD
    threshold := 100 }

/-! Basic lemmas about the heap and the association list. -/

theorem length_heapSet (h : List FileMap) (a : Nat) (fm : FileMap) :
    (heapSet h a fm).length = h.length := by
  induction h generalizing a with
  | nil => rfl
  | cons x xs ih =>
      cases a with
      | zero => rfl
      | succ a => simp [heapSet, ih]

theorem heapGet_set (h : List FileMap) (a b : Nat) (fm : FileMap) :
    heapGet (heapSet h a fm) b =
      if b = a ∧ a < h.length then fm else heapGet h b := by
  induction h generalizing a b with
  | nil => simp [heapSet, heapGet]
  | cons x xs ih =>
      cases a with
      | zero =>
          cases b with
          | zero => simp [heapSet, heapGet]
          | succ b => simp [heapSet, heapGet]
      | succ a =>
          cases b with
          | zero => simp [heapSet, heapGet]
          | succ b =>
              show heapGet (heapSet xs a fm) b = _
              rw [ih a b]
              by_cases hba : b = a
              · by_cases hal : a < xs.length
                · simp [hba, hal]
                · simp [hba, hal, heapGet]
              · simp [hba, heapGet]

theorem heapGet_append_lt (h t : List FileMap) (a : Nat) (ha : a < h.length) :
    heapGet (h ++ t) a = heapGet h a := by
  induction h generalizing a with
  | nil => exact absurd ha (Nat.not_lt_zero a)
  | cons x xs ih =>
      cases a with
      | zero => rfl
      | succ a => exact ih a (Nat.lt_of_succ_lt_succ ha)

theorem heapGet_append_self (h : List FileMap) (fm : FileMap) :
    heapGet (h ++ [fm]) h.length = fm := by
  induction h with
  | nil => rfl
  | cons x xs ih => exact ih

theorem heapGet_mem (h : List FileMap) (a : Nat) (ha : a < h.length) :
    heapGet h a ∈ h := by
  induction h generalizing a with
  | nil => exact absurd ha (Nat.not_lt_zero a)
  | cons x xs ih =>
      cases a with
      | zero => exact List.mem_cons_self x xs
      | succ a => exact List.mem_cons_of_mem x (ih a (Nat.lt_of_succ_lt_succ ha))

theorem mem_heapSet (h : List FileMap) (a : Nat) (fm g : FileMap)
    (hg : g ∈ heapSet h a fm) : g ∈ h ∨ g = fm := by
  induction h generalizing a with
  | nil => simp [heapSet] at hg
  | cons x xs ih =>
      cases a with
      | zero =>
          rcases List.mem_cons.mp hg with h1 | h1
          · exact Or.inr h1
          · exact Or.inl (List.mem_cons_of_mem x h1)
      | succ a =>
          rcases List.mem_cons.mp hg with h1 | h1
          · exact Or.inl (h1 ▸ List.mem_cons_self x xs)
          · rcases ih a h1 with h2 | h2
            · exact Or.inl (List.mem_cons_of_mem x h2)
            · exact Or.inr h2

theorem mapFind_mem (m : List (Nat × Nat)) (k a : Nat)
    (hf : mapFind m k = some a) : (k, a) ∈ m := by
  induction m with
  | nil => simp [mapFind] at hf
  | cons p rest ih =>
      obtain ⟨p1, p2⟩ := p
      by_cases hp : p1 = k
      · simp [mapFind, hp] at hf
        subst hp; subst hf
        exact List.mem_cons_self _ _
      · simp [mapFind, hp] at hf
        exact List.mem_cons_of_mem _ (ih hf)

theorem mapFind_mapAssign_self (m : List (Nat × Nat)) (k a : Nat) :
    mapFind (mapAssign m k a) k = some a := by
  induction m with
  | nil => simp [mapAssign, mapFind]
  | cons p rest ih =>
      by_cases hp : p.1 = k
      · simp [mapAssign, hp, mapFind]
      · simp [mapAssign, hp, mapFind, ih]

/-! Correctness of the FileMap constructor under a consistent catalog. -/

theorem construct_ok (env : BFAEnv) (f : Nat) (hcat : catalogOK env)
    (hf : f < env.blkFiles.length) :
    FileMap.construct env.fs env.uninit (env.blkFiles.getD f default) =
      Except.ok
        { fnum := f
          mapsize := (env.blkFiles.getD f default).filesize
          filemap := fileBytes env f
          lastSeenCumulated := 0
          fetch := FetchState.fetched } := by
  obtain ⟨h1, h2, h3⟩ := hcat f hf
  unfold FileMap.construct
  rw [h2]
  rw [← h3]
  simp [List.take_length]
  simpa using h1

/-! Well-formedness preservation lemmas. -/

theorem HeapWF_get (env : BFAEnv) (h : List FileMap) (a : Nat)
    (hw : HeapWF env h) (ha : a < h.length) :
    (heapGet h a).fnum < env.blkFiles.length ∧
    (heapGet h a).filemap = fileBytes env (heapGet h a).fnum :=
  hw _ (heapGet_mem h a ha)

theorem HeapWF_heapSet (env : BFAEnv) (h : List FileMap) (a : Nat) (fm : FileMap)
    (hw : HeapWF env h) (ha : a < h.length)
    (hfn : fm.fnum = (heapGet h a).fnum) (hfm : fm.filemap = (heapGet h a).filemap) :
    HeapWF env (heapSet h a fm) := by
  intro g hg
  rcases mem_heapSet h a fm g hg with h1 | h1
  · exact hw g h1
  · subst h1
    have hget := HeapWF_get env h a hw ha
    exact ⟨hfn ▸ hget.1, by rw [hfn, hfm]; exact hget.2⟩

theorem MapWF_heapSet (h : List FileMap) (m : List (Nat × Nat)) (a : Nat) (fm : FileMap)
    (hw : MapWF h m) (hfn : fm.fnum = (heapGet h a).fnum) :
    MapWF (heapSet h a fm) m := by
  intro p hp
  have hpm := hw p hp
  refine ⟨by rw [length_heapSet]; exact hpm.1, ?_⟩
  rw [heapGet_set]
  by_cases hpa : p.2 = a ∧ a < h.length
  · rw [if_pos hpa, hfn, ← hpa.1]; exact hpm.2
  · rw [if_neg hpa]; exact hpm.2

/-! Specification of lookupOrLoad. -/

theorem lookupOrLoad_spec (env : BFAEnv) (st : BFAState) (fnum : Nat)
    (hcat : catalogOK env) (hwf : WF env st) (hf : fnum < env.blkFiles.length) :
    ∃ a st1, lookupOrLoad env st fnum = Except.ok (a, st1) ∧
      a < st1.heap.length ∧
      (heapGet st1.heap a).fnum = fnum ∧
      WF env st1 ∧
      st.heap.length ≤ st1.heap.length ∧
      (∀ p ∈ st.blkMaps, p ∈ st1.blkMaps) ∧
      st1.lastSeenCumulative = st.lastSeenCumulative ∧
      st1.nextThreshold = st.nextThreshold ∧
      st1.prefetchFileNum = st.prefetchFileNum := by
  cases hfind : mapFind st.blkMaps fnum with
  | some a =>
      have hmem := hwf.2 _ (mapFind_mem _ _ _ hfind)
      exact ⟨a, st, by simp [lookupOrLoad, hfind], hmem.1, hmem.2, hwf, le_refl _,
        fun p hp => hp, rfl, rfl, rfl⟩
  | none =>
      have hco := construct_ok env fnum hcat hf
      refine ⟨st.heap.length,
        { st with
            heap := st.heap ++
              [{ fnum := fnum
                 mapsize := (env.blkFiles.getD fnum default).filesize
                 filemap := fileBytes env fnum
                 lastSeenCumulated := 0
                 fetch := FetchState.fetched }]
            blkMaps := st.blkMaps ++ [(fnum, st.heap.length)] },
        ?_, ?_, ?_, ⟨?_, ?_⟩, ?_, ?_, rfl, rfl, rfl⟩
      · simp only [lookupOrLoad, hfind, hco]
      · simp
      · rw [heapGet_append_self]
      · intro g hg
        rcases List.mem_append.mp hg with h1 | h1
        · exact hwf.1 g h1
        · rw [List.mem_singleton.mp h1]
          exact ⟨hf, rfl⟩
      · intro p hp
        rcases List.mem_append.mp hp with h1 | h1
        · have hpm := hwf.2 p h1
          exact ⟨lt_of_lt_of_le hpm.1 (by simp),
            by rw [heapGet_append_lt _ _ _ hpm.1]; exact hpm.2⟩
        · rw [List.mem_singleton.mp h1]
          exact ⟨by simp, by rw [heapGet_append_self]⟩
      · simp
      · intro p hp; exact List.mem_append_left _ hp

/-! Specification of signalAndTouch and getFileMap. -/

theorem signalAndTouch_blkMaps (env : BFAEnv) (tlk : Bool) (fnum a : Nat)
    (st : BFAState) : (signalAndTouch env tlk fnum a st).blkMaps = st.blkMaps := by
  unfold signalAndTouch
  dsimp only
  split <;> rfl

theorem signalAndTouch_clock (env : BFAEnv) (tlk : Bool) (fnum a : Nat)
    (st : BFAState) :
    (signalAndTouch env tlk fnum a st).lastSeenCumulative = st.lastSeenCumulative := by
  unfold signalAndTouch
  dsimp only
  split <;> rfl

theorem signalAndTouch_nextThreshold (env : BFAEnv) (tlk : Bool) (fnum a : Nat)
    (st : BFAState) :
    (signalAndTouch env tlk fnum a st).nextThreshold = st.nextThreshold := by
  unfold signalAndTouch
  dsimp only
  split <;> rfl

theorem signalAndTouch_heapLen (env : BFAEnv) (tlk : Bool) (fnum a : Nat)
    (st : BFAState) :
    (signalAndTouch env tlk fnum a st).heap.length = st.heap.length := by
  unfold signalAndTouch
  dsimp only
  split <;> simp [length_heapSet]

theorem signalAndTouch_heapGet_self (env : BFAEnv) (tlk : Bool) (fnum a : Nat)
    (st : BFAState) (ha : a < st.heap.length) :
    heapGet (signalAndTouch env tlk fnum a st).heap a =
      { heapGet st.heap a with fetch := FetchState.accessed } := by
  unfold signalAndTouch
  dsimp only
  split <;> simp [heapGet_set, ha]

theorem signalAndTouch_WF (env : BFAEnv) (tlk : Bool) (fnum a : Nat)
    (st : BFAState) (hwf : WF env st) (ha : a < st.heap.length) :
    WF env (signalAndTouch env tlk fnum a st) := by
  unfold signalAndTouch
  dsimp only
  split
  · exact ⟨HeapWF_heapSet env st.heap a _ hwf.1 ha rfl rfl,
      MapWF_heapSet st.heap st.blkMaps a _ hwf.2 rfl⟩
  · exact ⟨HeapWF_heapSet env st.heap a _ hwf.1 ha rfl rfl,
      MapWF_heapSet st.heap st.blkMaps a _ hwf.2 rfl⟩

theorem getFileMap_spec (env : BFAEnv) (tlk : Bool) (st : BFAState) (fnum : Nat)
    (hcat : catalogOK env) (hwf : WF env st) (hf : fnum < env.blkFiles.length) :
    ∃ a st2, getFileMap env tlk st fnum = (Except.ok a, st2) ∧
      a < st2.heap.length ∧
      (heapGet st2.heap a).fnum = fnum ∧
      WF env st2 ∧
      st.heap.length ≤ st2.heap.length ∧
      (∀ p ∈ st.blkMaps, p ∈ st2.blkMaps) ∧
      st2.lastSeenCumulative = st.lastSeenCumulative ∧
      st2.nextThreshold = st.nextThreshold := by
  obtain ⟨a, st1, heq, ha, hfn, hwf1, hlen, hmaps, hclock, hthr, _⟩ :=
    lookupOrLoad_spec env st fnum hcat hwf hf
  refine ⟨a, signalAndTouch env tlk fnum a st1, ?_, ?_, ?_, ?_, ?_, ?_, ?_, ?_⟩
  · simp [getFileMap, heq]
  · rw [signalAndTouch_heapLen]; exact ha
  · rw [signalAndTouch_heapGet_self env tlk fnum a st1 ha]; exact hfn
  · exact signalAndTouch_WF env tlk fnum a st1 hwf1 ha
  · rw [signalAndTouch_heapLen]; exact hlen
  · rw [signalAndTouch_blkMaps]; exact hmaps
  · rw [signalAndTouch_clock]; exact hclock
  · rw [signalAndTouch_nextThreshold]; exact hthr

/-! Specification of serveFrom, maybeSweep, fastPathAddr. -/

theorem serveFrom_spec (env : BFAEnv) (st : BFAState) (a offset size f : Nat)
    (hwf : WF env st) (ha : a < st.heap.length)
    (hfn : (heapGet st.heap a).fnum = f) :
    (serveFrom st a offset size).1 = ((fileBytes env f).drop offset).take size ∧
    WF env (serveFrom st a offset size).2 ∧
    (serveFrom st a offset size).2.heap.length = st.heap.length ∧
    (serveFrom st a offset size).2.blkMaps = st.blkMaps ∧
    (serveFrom st a offset size).2.nextThreshold = st.nextThreshold := by
  have hget := HeapWF_get env st.heap a hwf.1 ha
  refine ⟨?_, ⟨?_, ?_⟩, ?_, rfl, rfl⟩
  · show ((heapGet st.heap a).filemap.drop offset).take size = _
    rw [hget.2, hfn]
  · exact HeapWF_heapSet env st.heap a _ hwf.1 ha rfl rfl
  · exact MapWF_heapSet st.heap st.blkMaps a _ hwf.2 rfl
  · show (heapSet st.heap a _).length = _
    rw [length_heapSet]

theorem maybeSweep_spec (env : BFAEnv) (ext : List Nat) (st : BFAState)
    (hwf : WF env st) :
    WF env (maybeSweep env ext st) ∧
    (maybeSweep env ext st).heap = st.heap ∧
    (maybeSweep env ext st).lastSeenCumulative = st.lastSeenCumulative ∧
    (∀ p ∈ st.blkMaps, p.2 ∈ ext → p ∈ (maybeSweep env ext st).blkMaps) := by
  unfold maybeSweep
  split
  · refine ⟨⟨hwf.1, ?_⟩, rfl, rfl, ?_⟩
    · intro p hp
      exact hwf.2 p (List.mem_filter.mp hp).1
    · intro p hp hpe
      apply List.mem_filter.mpr
      exact ⟨hp, by simp [hpe]⟩
  · exact ⟨hwf, rfl, rfl, fun p hp _ => hp⟩

theorem fastPathAddr_spec (st : BFAState) (fnum : Nat)
    (fmp : Option FileMapContainer) (a : Nat)
    (hfa : fastPathAddr st fnum fmp = some a) :
    a ∈ cursorRefs fmp ∧ (heapGet st.heap a).fnum = fnum := by
  cases fmp with
  | none => simp [fastPathAddr] at hfa
  | some c =>
      cases hp : c.prev with
      | none => simp [fastPathAddr, hp] at hfa
      | some b =>
          by_cases hb : (heapGet st.heap b).fnum = fnum
          · simp only [fastPathAddr, hp, if_pos hb, Option.some.injEq] at hfa
            subst hfa
            exact ⟨by simp [cursorRefs, hp], hb⟩
          · simp [fastPathAddr, hp, hb] at hfa

theorem cursorRefs_setCurrent (fmp : Option FileMapContainer) (a b : Nat)
    (hb : b ∈ cursorRefs (fmp.map (fun c => { c with current := some a }))) :
    b = a ∨ b ∈ cursorRefs fmp := by
  cases fmp with
  | none => simp [cursorRefs] at hb
  | some c =>
      have hb2 : b ∈ cursorRefs (some { c with current := some a }) := hb
      simp only [cursorRefs, List.mem_append] at hb2
      rcases hb2 with hb2 | hb2
      · refine Or.inr ?_
        simp only [cursorRefs, List.mem_append]
        exact Or.inl hb2
      · simp only [Option.toList_some, List.mem_singleton] at hb2
        exact Or.inl hb2

theorem cursorRefs_demote (fmp : Option FileMapContainer) (b : Nat)
    (hb : b ∈ cursorRefs (fmp.map (fun c => { c with prev := c.current }))) :
    b ∈ cursorRefs fmp := by
  cases fmp with
  | none => simp [cursorRefs] at hb
  | some c =>
      have hb2 : b ∈ cursorRefs (some { c with prev := c.current }) := hb
      simp only [cursorRefs, List.mem_append] at hb2
      simp only [cursorRefs, List.mem_append]
      rcases hb2 with hb2 | hb2
      · exact Or.inr hb2
      · exact Or.inr hb2

/-! The per-call specification of BlockFileAccessor::getRawBlock. -/

theorem BFA_getRawBlock_spec (env : BFAEnv) (tlk : Bool) (extraRefs : List Nat)
    (st : BFAState) (fnum offset size : Nat) (fmp : Option FileMapContainer)
    (hcat : catalogOK env) (hwf : WF env st) (hcwf : CWF st fmp)
    (hf : fnum < env.blkFiles.length) :
    ∃ a st', BFA_getRawBlock env tlk extraRefs st fnum offset size fmp =
        (Except.ok (((fileBytes env fnum).drop offset).take size),
         fmp.map (fun c => { c with current := some a }), st') ∧
      WF env st' ∧
      st.heap.length ≤ st'.heap.length ∧
      CWF st' (fmp.map (fun c => { c with current := some a })) := by
  cases hfa : fastPathAddr st fnum fmp with
  | some a =>
      have hsp := fastPathAddr_spec st fnum fmp a hfa
      have ha : a < st.heap.length := hcwf a hsp.1
      obtain ⟨hb, hw2, hl2, _, _⟩ :=
        serveFrom_spec env st a offset size fnum hwf ha hsp.2
      obtain ⟨hws, hhs, _, _⟩ := maybeSweep_spec env
        (extraRefs ++ cursorRefs (fmp.map (fun c => { c with current := some a })))
        (serveFrom st a offset size).2 hw2
      refine ⟨a,
        maybeSweep env
          (extraRefs ++ cursorRefs (fmp.map (fun c => { c with current := some a })))
          (serveFrom st a offset size).2,
        ?_, hws, ?_, ?_⟩
      · simp [BFA_getRawBlock, hfa, hb]
      · rw [hhs, hl2]
      · intro b hbr
        rw [hhs, hl2]
        rcases cursorRefs_setCurrent fmp a b hbr with h1 | h1
        · rw [h1]; exact ha
        · exact hcwf b h1
  | none =>
      obtain ⟨a, st2, heq, ha2, hfn2, hwf2, hlen2, _, hclock2, hthr2⟩ :=
        getFileMap_spec env tlk st fnum hcat hwf hf
      obtain ⟨hb, hw3, hl3, _, _⟩ :=
        serveFrom_spec env st2 a offset size fnum hwf2 ha2 hfn2
      obtain ⟨hws, hhs, _, _⟩ := maybeSweep_spec env
        (extraRefs ++ cursorRefs (fmp.map (fun c => { c with current := some a })))
        (serveFrom st2 a offset size).2 hw3
      refine ⟨a,
        maybeSweep env
          (extraRefs ++ cursorRefs (fmp.map (fun c => { c with current := some a })))
          (serveFrom st2 a offset size).2,
        ?_, hws, ?_, ?_⟩
      · simp [BFA_getRawBlock, hfa, heq, hb]
      · rw [hhs, hl3]; exact hlen2
      · intro b hbr
        rw [hhs, hl3]
        rcases cursorRefs_setCurrent fmp a b hbr with h1 | h1
        · rw [h1]; exact ha2
        · exact lt_of_lt_of_le (hcwf b h1) hlen2

/-! Structural lemmas (no well-formedness assumptions). -/

theorem lookupOrLoad_maps_mono (env : BFAEnv) (st : BFAState) (fnum a : Nat)
    (st1 : BFAState) (heq : lookupOrLoad env st fnum = Except.ok (a, st1)) :
    ∀ p ∈ st.blkMaps, p ∈ st1.blkMaps := by
  unfold lookupOrLoad at heq
  cases hfind : mapFind st.blkMaps fnum with
  | some b =>
      rw [hfind] at heq
      simp only [Except.ok.injEq, Prod.mk.injEq] at heq
      rw [← heq.2]
      exact fun p hp => hp
  | none =>
      rw [hfind] at heq
      cases hc : FileMap.construct env.fs env.uninit (env.blkFiles.getD fnum default) with
      | error e => rw [hc] at heq; simp at heq
      | ok fm =>
          rw [hc] at heq
          simp only [Except.ok.injEq, Prod.mk.injEq] at heq
          rw [← heq.2]
          exact fun p hp => List.mem_append_left _ hp

theorem getFileMap_maps_mono (env : BFAEnv) (tlk : Bool) (st : BFAState)
    (fnum a : Nat) (st2 : BFAState)
    (heq : getFileMap env tlk st fnum = (Except.ok a, st2)) :
    ∀ p ∈ st.blkMaps, p ∈ st2.blkMaps := by
  unfold getFileMap at heq
  cases hlo : lookupOrLoad env st fnum with
  | error e => rw [hlo] at heq; simp at heq
  | ok r =>
      obtain ⟨a1, st1⟩ := r
      rw [hlo] at heq
      simp only [Prod.mk.injEq, Except.ok.injEq] at heq
      rw [← heq.2, signalAndTouch_blkMaps]
      exact lookupOrLoad_maps_mono env st fnum a1 st1 hlo

theorem serveFrom_blkMaps (st : BFAState) (a offset size : Nat) :
    (serveFrom st a offset size).2.blkMaps = st.blkMaps := rfl

theorem maybeSweep_keep (env : BFAEnv) (ext : List Nat) (st : BFAState)
    (p : Nat × Nat) (hp : p ∈ st.blkMaps) (hpe : p.2 ∈ ext) :
    p ∈ (maybeSweep env ext st).blkMaps := by
  unfold maybeSweep
  split
  · exact List.mem_filter.mpr ⟨hp, by simp [hpe]⟩
  · exact hp

/-! Claims. -/

/-- C1: for every sequence of getRawBlock calls whose (file_index, offset,
length) ranges are valid against the catalog (offset + length within the
catalog byte size of the file), the byte views returned equal the
corresponding ranges [offset, offset + length) of the on-disk contents of
the files. -/
theorem claim_C1_read_roundTrip (env : BFAEnv) (st : BFAState)
    (fmp : Option FileMapContainer) (reads : List ReadReq)
    (hcat : catalogOK env) (hwf : WF env st) (hcwf : CWF st fmp)
    (hv : ∀ r ∈ reads, r.fnum < env.blkFiles.length ∧
      r.offset + r.size ≤ (env.blkFiles.getD r.fnum default).filesize) :
    ∃ fmp' st', runReads env st fmp reads =
      (Except.ok (reads.map (fun r =>
        ((fileBytes env r.fnum).drop r.offset).take r.size)), fmp', st') := by
  revert hv
  induction reads generalizing st fmp with
  | nil => exact fun _ => ⟨fmp, st, rfl⟩
  | cons r rs ih =>
      intro hv
      obtain ⟨a, st1, heq, hwf1, hlen1, hcwf1⟩ :=
        BFA_getRawBlock_spec env r.tlk [] st r.fnum r.offset r.size fmp hcat hwf hcwf
          (hv r (List.mem_cons_self r rs)).1
      have hcwf2 : CWF st1
          ((fmp.map (fun c => { c with current := some a })).map
            (fun c => { c with prev := c.current })) := by
        intro b hb
        exact hcwf1 b (cursorRefs_demote _ b hb)
      obtain ⟨fmp', st', hrun⟩ := ih st1 _ hwf1 hcwf2
        (fun q hq => hv q (List.mem_cons_of_mem r hq))
      refine ⟨fmp', st', ?_⟩
      simp only [runReads, heq, hrun, List.map_cons]

/-- Closed instance of C1: three valid reads against a fresh accessor over a
concrete two-file catalog return exactly the on-disk byte ranges. -/
theorem claim_C1_witness :
    ∃ fmp' st', runReads envW stW (some ⟨none, none⟩)
        [⟨0, 0, 2, true⟩, ⟨1, 0, 1, true⟩, ⟨0, 1, 1, true⟩] =
      (Except.ok [[7, 8], [3], [8]], fmp', st') := by
  obtain ⟨fmp', st', h⟩ := claim_C1_read_roundTrip envW stW (some ⟨none, none⟩)
    [⟨0, 0, 2, true⟩, ⟨1, 0, 1, true⟩, ⟨0, 1, 1, true⟩]
    (by unfold catalogOK; decide) (by unfold WF HeapWF MapWF; decide)
    (by unfold CWF; decide) (by decide)
  rw [show ([⟨0, 0, 2, true⟩, ⟨1, 0, 1, true⟩, ⟨0, 1, 1, true⟩] : List ReadReq).map
      (fun r => ((fileBytes envW r.fnum).drop r.offset).take r.size) =
      [[7, 8], [3], [8]] from by decide] at h
  exact ⟨fmp', st', h⟩

/-- C3: when the cursor previous region has the requested file index, the
fast path is taken (no table lookup) and its byte view is bit-identical both
to the view the slow path (getFileMap lookup, no cursor) produces for the
same (file_index, offset, length) and to the on-disk byte range. -/
theorem claim_C3_fastPath_eq_slowPath (env : BFAEnv) (tlk : Bool)
    (extraRefs : List Nat) (st : BFAState) (fnum offset size a : Nat)
    (c : FileMapContainer)
    (hcat : catalogOK env) (hwf : WF env st) (hcwf : CWF st (some c))
    (hprev : c.prev = some a)
    (hmatch : (heapGet st.heap a).fnum = fnum)
    (hf : fnum < env.blkFiles.length) :
    fastPathAddr st fnum (some c) = some a ∧
    (BFA_getRawBlock env tlk extraRefs st fnum offset size (some c)).1 =
      (BFA_getRawBlock env tlk extraRefs st fnum offset size none).1 ∧
    (BFA_getRawBlock env tlk extraRefs st fnum offset size (some c)).1 =
      Except.ok (((fileBytes env fnum).drop offset).take size) := by
  obtain ⟨a1, st1, heq1, _, _, _⟩ := BFA_getRawBlock_spec env tlk extraRefs st
    fnum offset size (some c) hcat hwf hcwf hf
  obtain ⟨a2, st2, heq2, _, _, _⟩ := BFA_getRawBlock_spec env tlk extraRefs st
    fnum offset size none hcat hwf (by intro b hb; simp [cursorRefs] at hb) hf
  refine ⟨?_, ?_, ?_⟩
  · simp [fastPathAddr, hprev, hmatch]
  · rw [heq1, heq2]
  · rw [heq1]

/-- Closed instance of C3: with file 0 resident and a cursor whose previous
region is file 0, the fast path and the slow path both return byte [8]. -/
theorem claim_C3_witness :
    (BFA_getRawBlock envW true [] stC3 0 1 1 (some ⟨some 0, some 0⟩)).1 =
      (BFA_getRawBlock envW true [] stC3 0 1 1 none).1 ∧
    (BFA_getRawBlock envW true [] stC3 0 1 1 (some ⟨some 0, some 0⟩)).1 =
      Except.ok [8] := by
  have h := claim_C3_fastPath_eq_slowPath envW true [] stC3 0 1 1 0
    ⟨some 0, some 0⟩ (by unfold catalogOK; decide) (by unfold WF HeapWF MapWF; decide)
    (by unfold CWF; decide) rfl (by decide) (by decide)
  refine ⟨h.2.1, ?_⟩
  rw [h.2.2]
  rw [show ((fileBytes envW 0).drop 1).take 1 = [8] from by decide]

/-- C2: the eviction sweep removes a table entry iff its usage mark plus the
threshold is below the clock (uint64 arithmetic) and the table holds the only
reference to the region; consequently every entry surviving a sweep has
mark + threshold ≥ clock or an outstanding external reference; and an entry
whose region the AccessCursor of a getRawBlock call still references is never
removed by the sweep of that call. -/
theorem claim_C2_sweep_iff :
    (∀ (heap : List FileMap) (clock T : Nat) (ext : List Nat)
      (m : List (Nat × Nat)) (p : Nat × Nat), p ∈ m →
      (p ∉ evictionSweep heap clock T ext m ↔
        (((heapGet heap p.2).lastSeenCumulated + T) % U64 < clock ∧ p.2 ∉ ext))) ∧
    (∀ (heap : List FileMap) (clock T : Nat) (ext : List Nat)
      (m : List (Nat × Nat)) (p : Nat × Nat), p ∈ evictionSweep heap clock T ext m →
      clock ≤ ((heapGet heap p.2).lastSeenCumulated + T) % U64 ∨ p.2 ∈ ext) ∧
    (∀ (env : BFAEnv) (tlk : Bool) (extraRefs : List Nat) (st : BFAState)
      (fnum offset size : Nat) (fmp : Option FileMapContainer)
      (bytes : List Nat) (fmp' : Option FileMapContainer) (st' : BFAState)
      (p : Nat × Nat),
      BFA_getRawBlock env tlk extraRefs st fnum offset size fmp =
        (Except.ok bytes, fmp', st') →
      p ∈ st.blkMaps → p.2 ∈ cursorRefs fmp' → p ∈ st'.blkMaps) := by
  refine ⟨?_, ?_, ?_⟩
  · intro heap clock T ext m p hp
    by_cases hL : ((heapGet heap p.2).lastSeenCumulated + T) % U64 < clock <;>
      by_cases hM : p.2 ∈ ext <;>
      simp [evictionSweep, List.mem_filter, hp, hL, hM]
  · intro heap clock T ext m p hp
    have h2 := (List.mem_filter.mp hp).2
    by_cases hM : p.2 ∈ ext
    · exact Or.inr hM
    · refine Or.inl (Nat.le_of_not_lt ?_)
      intro hlt
      simp [hlt, hM] at h2
  · intro env tlk extraRefs st fnum offset size fmp bytes fmp' st' p heq hp hpref
    unfold BFA_getRawBlock at heq
    cases hfa : fastPathAddr st fnum fmp with
    | some a =>
        rw [hfa] at heq
        simp only [Prod.mk.injEq, Except.ok.injEq] at heq
        obtain ⟨_, h2, h3⟩ := heq
        rw [← h3]
        refine maybeSweep_keep env _ _ p ?_ ?_
        · rw [serveFrom_blkMaps]; exact hp
        · exact List.mem_append_right _ (h2.symm ▸ hpref)
    | none =>
        rw [hfa] at heq
        cases hgf : getFileMap env tlk st fnum with
        | mk r stx =>
            cases r with
            | error e => rw [hgf] at heq; simp at heq
            | ok a =>
                rw [hgf] at heq
                simp only [Prod.mk.injEq, Except.ok.injEq] at heq
                obtain ⟨_, h2, h3⟩ := heq
                rw [← h3]
                refine maybeSweep_keep env _ _ p ?_ ?_
                · rw [serveFrom_blkMaps]
                  exact getFileMap_maps_mono env tlk st fnum a stx hgf p hp
                · exact List.mem_append_right _ (h2.symm ▸ hpref)

/-- Closed instance of C2: an unreferenced stale entry is removed by the
sweep, while an entry with an external reference survives the same sweep. -/
theorem claim_C2_witness :
    (0, 0) ∉ evictionSweep [fmA] 20 10 [] [(0, 0)] ∧
    (1, 1) ∈ evictionSweep [fmA, fmB] 20 10 [1] [(0, 0), (1, 1)] := by
  constructor
  · exact (claim_C2_sweep_iff.1 [fmA] 20 10 [] [(0, 0)] (0, 0) (by decide)).mpr
      (by decide)
  · by_contra hn
    have hx := (claim_C2_sweep_iff.1 [fmA, fmB] 20 10 [1] [(0, 0), (1, 1)] (1, 1)
      (by decide)).mp hn
    exact absurd hx (by decide)

/-- Counterexample to C4: threshold 4; file 1 is read (4 bytes), so the clock
reaches exactly 4 = usage mark of file 0 (which is 0) + threshold, no holder
retains file 0, and the sweep runs (nextThreshold moves from 0 to 8) — yet
entry (0, 0) SURVIVES, because the source evicts only on a strict
mark + threshold < clock. -/
theorem claim_C4_counterexample :
    (BFA_getRawBlock envC4 true [] stC4 1 0 4 none).2.2.blkMaps = [(0, 0), (1, 1)] ∧
    (BFA_getRawBlock envC4 true [] stC4 1 0 4 none).2.2.lastSeenCumulative =
      (heapGet stC4.heap 0).lastSeenCumulated + envC4.threshold ∧
    (BFA_getRawBlock envC4 true [] stC4 1 0 4 none).2.2.nextThreshold = 8 := by
  decide

/-- C4 (amended): with no other holders, a sweep evicts an entry once the
clock strictly exceeds its usage mark plus the threshold (mark + T + 1 or
more); at exactly mark + T past — and hence also one byte short of it — the
entry survives. -/
theorem claim_C4_eviction_boundary (heap : List FileMap) (T f a : Nat)
    (m : List (Nat × Nat)) (hp : (f, a) ∈ m)
    (hnw : (heapGet heap a).lastSeenCumulated + T + 1 < U64) :
    (f, a) ∉ evictionSweep heap ((heapGet heap a).lastSeenCumulated + T + 1) T [] m ∧
    (f, a) ∈ evictionSweep heap ((heapGet heap a).lastSeenCumulated + T) T [] m := by
  constructor
  · intro hmem
    have h2 := (List.mem_filter.mp hmem).2
    have hlt : ((heapGet heap a).lastSeenCumulated + T) % U64 <
        (heapGet heap a).lastSeenCumulated + T + 1 := by
      rw [Nat.mod_eq_of_lt (by omega)]
      omega
    simp [hlt] at h2
  · apply List.mem_filter.mpr
    refine ⟨hp, ?_⟩
    have hge : ¬(((heapGet heap a).lastSeenCumulated + T) % U64 <
        (heapGet heap a).lastSeenCumulated + T) := by
      rw [Nat.mod_eq_of_lt (by omega)]
      omega
    simp [hge]

/-- Closed instance of the amended C4: mark 0, threshold 10; at clock 11 the
entry is evicted, at clock 10 (exactly threshold past the mark) it
survives. -/
theorem claim_C4_witness :
    (0, 0) ∉ evictionSweep [fmA] 11 10 [] [(0, 0)] ∧
    (0, 0) ∈ evictionSweep [fmA] 10 10 [] [(0, 0)] := by
  have h := claim_C4_eviction_boundary [fmA] 10 0 0 [(0, 0)] (by decide) (by decide)
  exact h

/-- Counterexample to C5: the catalog records 2 bytes for file 0 but the file
on disk holds a single byte [7]; the read is short, yet the constructor
SUCCEEDS — the second buffer byte is simply the uninitialized malloc byte 9 —
instead of failing with an IoError. -/
theorem claim_C5_counterexample :
    FileMap.construct fsShort 9 ⟨0, 0, 2⟩ =
      Except.ok ⟨0, 2, [7, 9], 0, FetchState.fetched⟩ := by
  decide

/-- C5 (amended): FileRegion construction fails with an IoError exactly when
the file cannot be opened.  A short read is not detected: whenever the open
succeeds the constructor returns a region whose buffer has exactly the
catalog byte size, holding the on-disk bytes up to the on-disk length
followed by uninitialized bytes. -/
theorem claim_C5_construct_spec (fs : FileSystem) (uninit : Nat) (blk : BlkFile) :
    (fs blk.path = none →
      FileMap.construct fs uninit blk = Except.error IoError.openFailed) ∧
    (∀ bs, fs blk.path = some bs →
      FileMap.construct fs uninit blk = Except.ok
        { fnum := blk.fnum
          mapsize := blk.filesize
          filemap := bs.take blk.filesize ++
            List.replicate (blk.filesize - (bs.take blk.filesize).length) uninit
          lastSeenCumulated := 0
          fetch := FetchState.fetched } ∧
      (bs.take blk.filesize ++
        List.replicate (blk.filesize - (bs.take blk.filesize).length) uninit).length
        = blk.filesize) := by
  constructor
  · intro h
    unfold FileMap.construct
    rw [h]
  · intro bs h
    constructor
    · unfold FileMap.construct
      rw [h]
    · simp only [List.length_append, List.length_take, List.length_replicate]
      omega

/-- Closed instance of the amended C5: an unopenable path errors; a short
read succeeds with the catalog-sized, partly uninitialized buffer. -/
theorem claim_C5_witness :
    FileMap.construct fsShort 9 ⟨5, 1, 0⟩ = Except.error IoError.openFailed ∧
    FileMap.construct fsShort 9 ⟨0, 0, 2⟩ =
      Except.ok ⟨0, 2, [7, 9], 0, FetchState.fetched⟩ := by
  have h1 := (claim_C5_construct_spec fsShort 9 ⟨5, 1, 0⟩).1 (by decide)
  have h2 := (claim_C5_construct_spec fsShort 9 ⟨0, 0, 2⟩).2 [7] (by decide)
  refine ⟨h1, ?_⟩
  rw [h2.1]
  decide

/-- Counterexample to C6: the table already holds an entry for index 1 (aged
region with mark 42, tag FETCH_ACCESSED at address 0) and the pending slot
holds index 1; the worker iteration REPLACES the entry — the key now maps to
the freshly loaded region at address 1 with mark 0 and tag FETCH_FETCHED —
instead of leaving it unchanged. -/
theorem claim_C6_counterexample :
    mapFind stC6.blkMaps 1 = some 0 ∧
    (heapGet stC6.heap 0).fetch = FetchState.accessed ∧
    (heapGet stC6.heap 0).lastSeenCumulated = 42 ∧
    stC6.prefetchFileNum = 1 ∧
    (prefetchStep envW stC6).1 = Except.ok () ∧
    mapFind (prefetchStep envW stC6).2.blkMaps 1 = some 1 ∧
    (heapGet (prefetchStep envW stC6).2.heap 1).fetch = FetchState.fetched ∧
    (heapGet (prefetchStep envW stC6).2.heap 1).lastSeenCumulated = 0 := by
  decide

/-- C6 (amended): when a pending index is set and is not the sentinel, the
prefetch worker does not take an insert-if-absent path: it constructs a fresh
region unconditionally and stores it through operator[], so any existing
entry for that index is replaced by the fresh region (usage mark 0, tag
Loaded). -/
theorem claim_C6_prefetch_replaces (env : BFAEnv) (st : BFAState) (fm : FileMap)
    (hpend : st.prefetchFileNum ≠ UINT32_MAX)
    (hc : FileMap.construct env.fs env.uninit
      (env.blkFiles.getD st.prefetchFileNum default) = Except.ok fm) :
    prefetchStep env st = (Except.ok (),
      { st with
          heap := st.heap ++ [fm]
          blkMaps := mapAssign st.blkMaps st.prefetchFileNum st.heap.length }) ∧
    mapFind (mapAssign st.blkMaps st.prefetchFileNum st.heap.length)
      st.prefetchFileNum = some st.heap.length ∧
    heapGet (st.heap ++ [fm]) st.heap.length = fm := by
  refine ⟨?_, mapFind_mapAssign_self _ _ _, heapGet_append_self _ _⟩
  unfold prefetchStep
  rw [if_neg hpend, hc]

/-- Closed instance of the amended C6. -/
theorem claim_C6_witness :
    prefetchStep envW stC6 = (Except.ok (),
      { stC6 with
          heap := stC6.heap ++ [⟨1, 1, [3], 0, FetchState.fetched⟩]
          blkMaps := mapAssign stC6.blkMaps stC6.prefetchFileNum stC6.heap.length }) :=
  (claim_C6_prefetch_replaces envW stC6 ⟨1, 1, [3], 0, FetchState.fetched⟩
    (by decide) (by decide)).1

/-- C7: if the load during getFileMap fails (the file cannot be opened), the
IoError propagates synchronously to the caller and the table state is
unchanged — no entry is inserted and nothing else is modified — both at the
getFileMap level and through a getRawBlock call that misses the cursor. -/
theorem claim_C7_load_failure (env : BFAEnv) (tlk : Bool) (ext : List Nat)
    (st : BFAState) (fnum offset size : Nat)
    (hmiss : mapFind st.blkMaps fnum = none)
    (hopen : env.fs (env.blkFiles.getD fnum default).path = none) :
    getFileMap env tlk st fnum = (Except.error IoError.openFailed, st) ∧
    BFA_getRawBlock env tlk ext st fnum offset size none =
      (Except.error IoError.openFailed, none, st) := by
  have hlo : lookupOrLoad env st fnum = Except.error IoError.openFailed := by
    simp only [lookupOrLoad, hmiss, FileMap.construct, hopen]
  have hgf : getFileMap env tlk st fnum = (Except.error IoError.openFailed, st) := by
    simp only [getFileMap, hlo]
  refine ⟨hgf, ?_⟩
  simp only [BFA_getRawBlock, fastPathAddr, hgf]

/-- Closed instance of C7: over a filesystem where no file opens, a fresh
accessor propagates the error and is left unchanged. -/
theorem claim_C7_witness :
    getFileMap envC4 true stW 0 = (Except.error IoError.openFailed, stW) ∧
    BFA_getRawBlock envC4 true [] stW 0 0 1 none =
      (Except.error IoError.openFailed, none, stW) :=
  claim_C7_load_failure envC4 true [] stW 0 0 1 (by decide) (by decide)

/-- Counterexample to C8: at a shared clock of 2^64 - 1, serving one byte
wraps the uint64 fetch_add, so the post-increment clock value is 0 — the
UsageClock DECREASES across this call, contradicting the unqualified "never
decreases". -/
theorem claim_C8_counterexample :
    (FileMap.getRawBlock fmA 0 1 (U64 - 1)).2.2 = 0 ∧
    (FileMap.getRawBlock fmA 0 1 (U64 - 1)).2.2 < U64 - 1 := by
  decide

/-- C8 (amended): FileMap::getRawBlock returns the view at
[offset, offset + size), adds size to the shared clock in uint64 arithmetic
(mod 2^64) and stores the post-increment value into the region usage mark;
the clock never decreases provided the 64-bit counter does not wrap
(clock + size < 2^64). -/
theorem claim_C8_getView_clock (fm : FileMap) (offset size clock : Nat) :
    FileMap.getRawBlock fm offset size clock =
      ((fm.filemap.drop offset).take size,
       { fm with lastSeenCumulated := (clock + size) % U64 },
       (clock + size) % U64) ∧
    (FileMap.getRawBlock fm offset size clock).2.1.lastSeenCumulated =
      (FileMap.getRawBlock fm offset size clock).2.2 ∧
    (clock + size < U64 → clock ≤ (FileMap.getRawBlock fm offset size clock).2.2) := by
  refine ⟨rfl, rfl, ?_⟩
  intro h
  show clock ≤ (clock + size) % U64
  rw [Nat.mod_eq_of_lt h]
  exact Nat.le_add_right _ _

/-- Closed instance of the amended C8: a non-wrapping call advances the mark
to the post-increment clock and does not decrease the clock. -/
theorem claim_C8_witness :
    (0 : Nat) + 2 < U64 ∧ (0 : Nat) ≤ (FileMap.getRawBlock fmA 0 2 0).2.2 :=
  ⟨by decide, (claim_C8_getView_clock fmA 0 2 0).2.2 (by decide)⟩

/-! Helper lemmas for the prefetch-direction claims. -/

theorem signalAndTouch_pending_first (env : BFAEnv) (fnum a : Nat) (st : BFAState)
    (hfetch : (heapGet st.heap a).fetch ≠ FetchState.accessed)
    (hpf : env.prefetch ≠ BFA_PREFETCH.PREFETCH_NONE) :
    (signalAndTouch env true fnum a st).prefetchFileNum = nextFnumOf env fnum := by
  unfold signalAndTouch
  dsimp only
  rw [if_pos ⟨hfetch, hpf, rfl⟩]

theorem getFileMap_firstTouch_pending (env : BFAEnv) (st : BFAState) (fnum : Nat)
    (hopen : (env.fs (env.blkFiles.getD fnum default).path).isSome = true)
    (hfirst : ∀ a, mapFind st.blkMaps fnum = some a →
      (heapGet st.heap a).fetch ≠ FetchState.accessed)
    (hpf : env.prefetch ≠ BFA_PREFETCH.PREFETCH_NONE) :
    ∃ a st', getFileMap env true st fnum = (Except.ok a, st') ∧
      st'.prefetchFileNum = nextFnumOf env fnum := by
  obtain ⟨bs, hbs⟩ := Option.isSome_iff_exists.mp hopen
  cases hfind : mapFind st.blkMaps fnum with
  | some a =>
      have hlo : lookupOrLoad env st fnum = Except.ok (a, st) := by
        simp [lookupOrLoad, hfind]
      refine ⟨a, signalAndTouch env true fnum a st, ?_, ?_⟩
      · simp [getFileMap, hlo]
      · exact signalAndTouch_pending_first env fnum a st (hfirst a hfind) hpf
  | none =>
      cases hc : FileMap.construct env.fs env.uninit (env.blkFiles.getD fnum default) with
      | error e =>
          exfalso
          unfold FileMap.construct at hc
          rw [hbs] at hc
          simp at hc
      | ok fm =>
          have hfetch : fm.fetch = FetchState.fetched := by
            unfold FileMap.construct at hc
            rw [hbs] at hc
            simp only [Except.ok.injEq] at hc
            rw [← hc]
          have hlo : lookupOrLoad env st fnum = Except.ok (st.heap.length,
              { st with
                  heap := st.heap ++ [fm]
                  blkMaps := st.blkMaps ++ [(fnum, st.heap.length)] }) := by
            simp only [lookupOrLoad, hfind, hc]
          refine ⟨st.heap.length,
            signalAndTouch env true fnum st.heap.length
              { st with
                  heap := st.heap ++ [fm]
                  blkMaps := st.blkMaps ++ [(fnum, st.heap.length)] }, ?_, ?_⟩
          · simp [getFileMap, hlo]
          · refine signalAndTouch_pending_first env fnum st.heap.length _ ?_ hpf
            show (heapGet (st.heap ++ [fm]) st.heap.length).fetch ≠ FetchState.accessed
            rw [heapGet_append_self, hfetch]
            decide

/-- C9: on a first-touch access (entry absent or not yet Touched) with
prefetching enabled and the try_lock succeeding, getFileMap records as the
pending prefetch index: in forward mode file_index + 1, replaced by the
sentinel UINT32_MAX when file_index is already the last catalog index; in
backward mode file_index - 1 in uint32 arithmetic, unconditionally, with no
lower-bound check at index 0. -/
theorem claim_C9_prefetch_direction (env : BFAEnv) (st : BFAState) (fnum : Nat)
    (hf : fnum < env.blkFiles.length) (hcatlen : env.blkFiles.length < U32)
    (hopen : (env.fs (env.blkFiles.getD fnum default).path).isSome = true)
    (hfirst : ∀ a, mapFind st.blkMaps fnum = some a →
      (heapGet st.heap a).fetch ≠ FetchState.accessed)
    (hpf : env.prefetch ≠ BFA_PREFETCH.PREFETCH_NONE) :
    ∃ a st', getFileMap env true st fnum = (Except.ok a, st') ∧
      st'.prefetchFileNum =
        (if env.prefetch = BFA_PREFETCH.PREFETCH_FORWARD then
          (if fnum = env.blkFiles.length - 1 then UINT32_MAX else fnum + 1)
         else (fnum + (U32 - 1)) % U32) := by
  obtain ⟨a, st', h1, h2⟩ := getFileMap_firstTouch_pending env st fnum hopen hfirst hpf
  refine ⟨a, st', h1, ?_⟩
  rw [h2]
  unfold nextFnumOf
  by_cases hm : env.prefetch = BFA_PREFETCH.PREFETCH_FORWARD
  · rw [if_pos hm, if_pos hm]
    have ha1 : (fnum + 1) % U32 = fnum + 1 := by
      apply Nat.mod_eq_of_lt
      unfold U32 at hcatlen ⊢
      omega
    have ha2 : (env.blkFiles.length + (U64 - 1)) % U64 = env.blkFiles.length - 1 := by
      have he : env.blkFiles.length + (U64 - 1) = (env.blkFiles.length - 1) + 1 * U64 := by
        unfold U64
        omega
      rw [he, Nat.add_mul_mod_self_right]
      apply Nat.mod_eq_of_lt
      unfold U32 at hcatlen
      unfold U64
      omega
    rw [ha1, ha2]
    by_cases hl : fnum = env.blkFiles.length - 1
    · rw [if_pos (by omega), if_pos hl]
    · rw [if_neg (by omega), if_neg hl]
  · rw [if_neg hm, if_neg hm]

/-- Closed instance of C9: a first touch of the last catalog index in forward
mode records the sentinel. -/
theorem claim_C9_witness :
    ∃ a st', getFileMap envW true stW 1 = (Except.ok a, st') ∧
      st'.prefetchFileNum = UINT32_MAX := by
  obtain ⟨a, st', h1, h2⟩ := claim_C9_prefetch_direction envW stW 1 (by decide)
    (by decide) (by decide)
    (by intro a ha; simp [stW, mapFind] at ha)
    (by decide)
  rw [show (if envW.prefetch = BFA_PREFETCH.PREFETCH_FORWARD then
      (if 1 = envW.blkFiles.length - 1 then UINT32_MAX else 1 + 1)
     else (1 + (U32 - 1)) % U32) = UINT32_MAX from by decide] at h2
  exact ⟨a, st', h1, h2⟩

/-- C10: in backward prefetch mode, a first-touch access to file index 0
computes the pending prefetch index as 0 - 1 in unsigned 32-bit arithmetic,
which wraps to UINT32_MAX — the same value as the "none" sentinel — and the
prefetch worker attempts no load when the pending slot holds the sentinel
(its iteration leaves the state unchanged), so the underflow at index 0 never
causes an out-of-range catalog access. -/
theorem claim_C10_backward_underflow (env : BFAEnv) (st : BFAState)
    (hb : env.prefetch = BFA_PREFETCH.PREFETCH_BACKWARD)
    (hopen : (env.fs (env.blkFiles.getD 0 default).path).isSome = true)
    (hfirst : ∀ a, mapFind st.blkMaps 0 = some a →
      (heapGet st.heap a).fetch ≠ FetchState.accessed) :
    (0 + (U32 - 1)) % U32 = UINT32_MAX ∧
    nextFnumOf env 0 = UINT32_MAX ∧
    (∃ a st', getFileMap env true st 0 = (Except.ok a, st') ∧
      st'.prefetchFileNum = UINT32_MAX) ∧
    (∀ st2 : BFAState, st2.prefetchFileNum = UINT32_MAX →
      prefetchStep env st2 = (Except.ok (), st2)) := by
  have hnf : nextFnumOf env 0 = UINT32_MAX := by
    unfold nextFnumOf
    rw [if_neg (by rw [hb]; decide)]
    decide
  refine ⟨by decide, hnf, ?_, ?_⟩
  · obtain ⟨a, st', h1, h2⟩ := getFileMap_firstTouch_pending env st 0 hopen hfirst
      (by rw [hb]; decide)
    exact ⟨a, st', h1, by rw [h2, hnf]⟩
  · intro st2 h2
    unfold prefetchStep
    rw [if_pos h2]

/-- Closed instance of C10: backward mode over a two-file catalog, first
touch of index 0; the pending slot receives the sentinel and the worker
iteration is a no-op. -/
theorem claim_C10_witness :
    nextFnumOf envB 0 = UINT32_MAX ∧
    prefetchStep envB stW = (Except.ok (), stW) := by
  have h := claim_C10_backward_underflow envB stW rfl (by decide)
    (by intro a ha; simp [stW, mapFind] at ha)
  exact ⟨h.2.1, h.2.2.2 stW (by decide)⟩

end FileMapModel
